import Mathlib

/-!
Verification development for the china_composition_service repository.

The definitions below are shallow embeddings of:
  * the JSON result-merging functions `parse_char_info`, `parse_title_info`,
    `parse_eassy_info`, `parse_result` and the pipeline driver
    `Composion::parse_task` (composion.cpp),
  * the HTTP response assembly `ImageInterface::HandleRequest` together with
    `MicroserviceDemo::handler` (url_request.hpp / app.cpp),
  * the task queue `std::ThreadPool` (threadpool.hpp), as a small-step
    transition system,
  * the per-request concurrency structure of `Composion` (four resources,
    three mutexes actually locked, one single-worker pool), as a small-step
    transition system over an arbitrary number of concurrent requests.

`Json::Value` (jsoncpp, a third-party library not in the repository) is
modelled by the inductive `JVal`; the operations used by the source are
given the library's semantics: `size()` counts elements of arrays/objects
and is 0 on scalars, range-`for` iterates array elements / object member
values and nothing on scalars, non-const `operator[](key)` on a scalar
other than null raises (modelled with `Except`), `asString` converts
null/string/bool/number and raises on arrays/objects, `append` requires
null-or-array.  Numeric JSON payloads are carried as `Int`; the merging
code only copies them, never computes with them.
-/

namespace CompositionService

/-- Model of jsoncpp `Json::Value`. -/
inductive JVal where
  | null : JVal
  | bool : Bool → JVal
  | num : Int → JVal
  | str : String → JVal
  | arr : List JVal → JVal
  | obj : List (String × JVal) → JVal

/-- Lookup of an object member list by key (first match). -/
def getField : List (String × JVal) → String → Option JVal
  | [], _ => none
  | (k', v) :: fs, k => if k' = k then some v else getField fs k

/-- Replace the value of key `k`, or add the member if absent. -/
def setField : List (String × JVal) → String → JVal → List (String × JVal)
  | [], k, v => [(k, v)]
  | (k', v') :: fs, k, v =>
      if k' = k then (k, v) :: fs else (k', v') :: setField fs k v

/-- Assignment `value[key] = v` on an object or null receiver (the only receivers the
source ever assigns through; other receivers are left unchanged and are
unreachable at the call sites, which test with `objGetE` first). -/
def objSet : JVal → String → JVal → JVal
  | .null, k, v => .obj [(k, v)]
  | .obj fs, k, v => .obj (setField fs k v)
  | w, _, _ => w

/-- Read of `value[key]` where the receiver is known to be an object or
null (returns null for a missing member, as jsoncpp does). -/
def objGetD : JVal → String → JVal
  | .obj fs, k => (getField fs k).getD .null
  | _, _ => .null

/-- Non-const `Json::Value::operator[](const char*)`: ok on objects and on
null (which jsoncpp turns into an object), raises on any other type. -/
def objGetE : JVal → String → Except Unit JVal
  | .obj fs, k => .ok ((getField fs k).getD .null)
  | .null, _ => .ok .null
  | _, _ => .error ()

/-- Operation `Json::Value::isMember`: ok on objects and null, raises otherwise. -/
def isMemberE : JVal → String → Except Unit Bool
  | .obj fs, k => .ok (getField fs k).isSome
  | .null, _ => .ok false
  | _, _ => .error ()

/-- Boolean membership test on the model (for stating theorems). -/
def isMemberB : JVal → String → Bool
  | .obj fs, k => (getField fs k).isSome
  | _, _ => false

/-- Operation `Json::Value::size()`: element count of arrays/objects, 0 on scalars. -/
def size : JVal → Nat
  | .arr xs => xs.length
  | .obj fs => fs.length
  | _ => 0

/-- The sequence visited by a range-`for` over a `Json::Value`: array
elements, object member values, nothing for scalars. -/
def elems : JVal → List JVal
  | .arr xs => xs
  | .obj fs => fs.map (·.2)
  | _ => []

/-- Non-const `Json::Value::operator[](ArrayIndex)`: ok on arrays and null
(jsoncpp extends with nulls, so an out-of-range read yields null), raises
on other types. -/
def arrIdxE : JVal → Nat → Except Unit JVal
  | .null, _ => .ok .null
  | .arr xs, i => .ok ((xs.get? i).getD .null)
  | _, _ => .error ()

/-- Operation `Json::Value::append`: ok on null (becomes a one-element array) and on
arrays, raises otherwise. -/
def appendE : JVal → JVal → Except Unit JVal
  | .null, v => .ok (.arr [v])
  | .arr xs, v => .ok (.arr (xs ++ [v]))
  | _, _ => .error ()

/-- Total append used in theorem statements (call sites guarantee the
null-or-array shape). -/
def appendVal : JVal → JVal → JVal
  | .null, v => .arr [v]
  | .arr xs, v => .arr (xs ++ [v])
  | w, _ => w

/-- Operation `Json::Value::isNull`. -/
def isNull : JVal → Bool
  | .null => true
  | _ => false

/-- Operation `Json::Value::asString`: "" for null, identity on strings,
"true"/"false" for bools, decimal rendering for numbers, raises on
arrays/objects. -/
def asStringE : JVal → Except Unit String
  | .null => .ok ""
  | .str s => .ok s
  | .bool b => .ok (if b then "true" else "false")
  | .num n => .ok (toString n)
  | _ => .error ()

/-! ### The result merger (composion.cpp)

`parse_char_info` is a loop `for (i = 0; i < input["char_pos"].size(); ++i)`
building one entry per character and appending it to `infos` (a subtree of
the caller's result, so entries appended before an exception survive in the
caller; the entry being built when an exception occurs is a local and is
lost).  Errors of type `Except JVal _` carry the receiver's value at the
moment of the C++ exception. -/

/-- Body of the `for (auto &loc : input["char_box"][i])` loop: append one
`{x, y}` location to the `char_location` array. -/
def boxStep (acc loc : JVal) : Except Unit JVal :=
  match arrIdxE loc 0 with
  | .error e => .error e
  | .ok lx =>
    match arrIdxE loc 1 with
    | .error e => .error e
    | .ok ly => appendE acc (objSet (objSet .null "x" lx) "y" ly)

/-- Body of the `for (auto &top : input["char_arr"][i])` loop: append one
candidate/confidence pair to the section array. -/
def topStep (acc top : JVal) : Except Unit JVal :=
  match arrIdxE top 0 with
  | .error e => .error e
  | .ok t0 =>
    match arrIdxE top 1 with
    | .error e => .error e
    | .ok t1 => appendE acc (objSet (objSet .null "char_ocr_result" t0) "char_confidence" t1)

/-- One iteration body of the loop in `parse_char_info`: the entry built for
character index `i`.  `result[section].append(info)` creates the `sec`
member only if the `char_arr` loop runs at least once, which the final
`if` reproduces. -/
def charEntry (input : JVal) (sec : String) (i : Nat) : Except Unit JVal :=
  match arrIdxE (objGetD input "char_pos") i with
  | .error e => .error e
  | .ok cpi =>
    match arrIdxE cpi 0 with
    | .error e => .error e
    | .ok x =>
      match arrIdxE cpi 1 with
      | .error e => .error e
      | .ok y =>
        match appendE .null (objSet (objSet .null "x" x) "y" y) with
        | .error e => .error e
        | .ok cl0 =>
          match arrIdxE (objGetD input "char_box") i with
          | .error e => .error e
          | .ok boxI =>
            match (elems boxI).foldlM boxStep cl0 with
            | .error e => .error e
            | .ok cl =>
              match arrIdxE (objGetD input "char_arr") i with
              | .error e => .error e
              | .ok arrI =>
                match (elems arrI).foldlM topStep JVal.null with
                | .error e => .error e
                | .ok secArr =>
                  if (elems arrI).isEmpty then .ok (objSet .null "char_location" cl)
                  else .ok (objSet (objSet .null "char_location" cl) sec secArr)

/-- The counting loop of `parse_char_info`: `rem` iterations remain, `i` is
the current index, `infos` the accumulator being appended to. -/
def pciGo (input : JVal) (sec : String) : Nat → Nat → JVal → Except JVal JVal
  | 0, _, infos => .ok infos
  | rem + 1, i, infos =>
    match charEntry input sec i with
    | .error _ => .error infos
    | .ok entry =>
      match appendE infos entry with
      | .error _ => .error infos
      | .ok infos' => pciGo input sec rem (i + 1) infos'

/-- Function `parse_char_info(infos, input, section)` from composion.cpp. -/
def parse_char_info (infos input : JVal) (sec : String) : Except JVal JVal :=
  match objGetE input "char_pos" with
  | .error _ => .error infos
  | .ok cp => pciGo input sec (size cp) 0 infos

/-- Function `parse_title_info(result, input, details)` from composion.cpp.  The
C++ `Json::Value val = input;` copy is the same value; `result` is the
subtree `result[title]` of `parse_result`'s result, and the write
`result["title_ocr_result"] = val["text"]` raises when that subtree is
a scalar (guarded here with `objGetE`).  An `Except.error`
models the C++ exception escaping, carrying the subtree's value at that
moment. -/
def parse_title_info (result input : JVal) (details : Bool) : Except JVal JVal :=
  if size input = 0 then .ok result
  else
    match isMemberE input "text" with
    | .error _ => .error result
    | .ok false => .ok result
    | .ok true =>
      let t := objGetD input "text"
      if isNull t then .ok result
      else
        match asStringE t with
        | .error _ => .error result
        | .ok s =>
          if s.length = 0 then .ok result
          else
            match objGetE result "title_ocr_result" with
            | .error _ => .error result
            | .ok _ =>
              let result1 := objSet result "title_ocr_result" t
              if !details then .ok result1
              else
                match parse_char_info (objGetD result1 "title_char_info") input "char_ocr_topn" with
                | .error part => .error (objSet result1 "title_char_info" part)
                | .ok sub => .ok (objSet result1 "title_char_info" sub)

/-- The body of the inner `for (auto &line : eaasy)` loop of
`parse_eassy_info`.  The state is the pair (`lines` accumulator, `flag`);
the C++ sets `flag = true` before appending, but a throw between the two
loses the whole paragraph, so setting both at the append is equivalent.
On a throw the paragraph-local state is lost, hence `Except Unit`. -/
def lineStep (details : Bool) (st : JVal × Bool) (line : JVal) : Except Unit (JVal × Bool) :=
  match objGetE line "text" with
  | .error _ => .error ()
  | .ok t =>
    if isNull t then .ok st
    else
      match asStringE t with
      | .error _ => .error ()
      | .ok s =>
        if s.length = 0 then .ok st
        else
          let info := objSet .null "line_ocr_result" t
          match (if details then
                   match parse_char_info (objGetD info "line_char_info") line "line_char_topn" with
                   | .error _ => Except.error ()
                   | .ok sub => Except.ok (objSet info "line_char_info" sub)
                 else Except.ok info) with
          | .error _ => .error ()
          | .ok info2 =>
            match appendE st.1 info2 with
            | .error _ => .error ()
            | .ok lines2 => .ok (lines2, true)

/-- The body of the outer `for (auto &eaasy : input)` loop of
`parse_eassy_info`: run the lines, then
`if (flag) result["para_ocr_result"].append(lines)`. -/
def paraStep (details : Bool) (result : JVal) (para : JVal) : Except JVal JVal :=
  match (elems para).foldlM (lineStep details) (JVal.null, false) with
  | .error _ => .error result
  | .ok (lines, flag) =>
    if flag then
      match objGetE result "para_ocr_result" with
      | .error _ => .error result
      | .ok cur =>
        match appendE cur lines with
        | .error _ => .error result
        | .ok arr2 => .ok (objSet result "para_ocr_result" arr2)
    else .ok result

/-- Function `parse_eassy_info(result, input, details)` from composion.cpp. -/
def parse_eassy_info (result input : JVal) (details : Bool) : Except JVal JVal :=
  if size input = 0 then .ok result
  else (elems input).foldlM (fun r e => paraStep details r e) result

/-- A recognizer's output string as consumed by `parse_result`: empty,
unparsable by `Json::Reader` (the JSON text grammar itself is not under
test), or parsed to a root value. -/
inductive RecOut where
  | emptyStr : RecOut
  | malformed : RecOut
  | parsed : JVal → RecOut

/-- One `if (root.isMember(k)) parse_X_info(result[key], root[k], details)`
block of `parse_result`: evaluating `result[key]` creates that member
(even if `f` then writes nothing), and an exception from either
`operator[]` or `f` makes the whole call return `false`, keeping the
mutations made so far. -/
def mergeSection (f : JVal → JVal → Bool → Except JVal JVal)
    (root result : JVal) (key memberKey : String) (details : Bool) : Bool × JVal :=
  match isMemberE root memberKey with
  | .error _ => (false, result)
  | .ok mt =>
    if mt then
      match objGetE result key with
      | .error _ => (false, result)
      | .ok cur =>
        match f cur (objGetD root memberKey) details with
        | .error part => (false, objSet result key part)
        | .ok v => (true, objSet result key v)
    else (true, result)

/-- Function `parse_result(requestid, str, result, details, prcision)` from
composion.cpp.  Returns the C++ return value together with the final value
of the by-reference `result` (mutations made before a caught exception
survive). -/
def parse_result (ro : RecOut) (result : JVal) (details prcision : Bool) : Bool × JVal :=
  match ro with
  | .emptyStr => (true, result)
  | .malformed => (false, result)
  | .parsed root =>
    let title := if prcision then "title_info_sec" else "title_info"
    let essay := if prcision then "essay_info_sec" else "essay_info"
    match mergeSection parse_title_info root result title "title" details with
    | (false, r1) => (false, r1)
    | (true, r1) => mergeSection parse_eassy_info root r1 essay "texts" details

/-! ### The pipeline driver `Composion::parse_task` (composion.cpp)

The four inference backends are opaque to the coordinator; an `Oracle`
records, for one request, each backend's status code and (for the two
recognizers) its output string.  `parse_task` is the control flow of the
C++ function; the `List Ev` records which resource calls / joins / merge
steps were executed (the precision call is listed at its submission
point). -/

/-- Per-request behaviour of the four opaque inference backends. -/
structure Oracle where
  yoloRet : Int
  detRet : Int
  imgCount : Nat
  polyCount : Nat
  recOldRet : Int
  recOldOut : RecOut
  recNewRet : Int
  recNewOut : RecOut

/-- Observable steps of one `parse_task` run. -/
inductive Ev where
  | yolo | det | recNew | recOld | fuGet | mergeOld | mergeNew
  deriving DecidableEq

/-- Function `Composion::parse_task(details, prcision, trace_id, img, result)`:
returns (C++ return value, final value of the by-reference `result`,
executed steps). -/
def parse_task (o : Oracle) (details prcision : Bool) (result : JVal) :
    Bool × JVal × List Ev :=
  if o.yoloRet ≠ 0 then (false, result, [Ev.yolo])
  else if o.detRet ≠ 0 then (false, result, [Ev.yolo, Ev.det])
  else if o.imgCount = 0 ∨ o.polyCount = 0 then (true, result, [Ev.yolo, Ev.det])
  else if prcision ∧ o.recNewRet ≠ 0 then
    (false, result, [Ev.yolo, Ev.det, Ev.recNew, Ev.recOld, Ev.fuGet])
  else if o.recOldRet ≠ 0 then
    (false, result,
      [Ev.yolo, Ev.det] ++ (if prcision then [Ev.recNew] else []) ++ [Ev.recOld]
        ++ (if prcision then [Ev.fuGet] else []))
  else
    match parse_result o.recOldOut result details false with
    | (false, r1) =>
      (false, r1,
        [Ev.yolo, Ev.det] ++ (if prcision then [Ev.recNew] else []) ++ [Ev.recOld]
          ++ (if prcision then [Ev.fuGet] else []) ++ [Ev.mergeOld])
    | (true, r1) =>
      if prcision then
        match parse_result o.recNewOut r1 details true with
        | (false, r2) =>
          (false, r2, [Ev.yolo, Ev.det, Ev.recNew, Ev.recOld, Ev.fuGet, Ev.mergeOld, Ev.mergeNew])
        | (true, r2) =>
          (true, r2, [Ev.yolo, Ev.det, Ev.recNew, Ev.recOld, Ev.fuGet, Ev.mergeOld, Ev.mergeNew])
      else (true, r1, [Ev.yolo, Ev.det, Ev.recOld, Ev.mergeOld])

/-! ### HTTP response assembly (url_request.hpp, app.cpp) -/

/-- Type `TALError` as used by the handler layer.  Modelled from the spec:
`base_error.h` is not in the repository snapshot; the claims only observe
whether an error equals `E_OK`, so the numeric payloads are placeholders
for distinct codes. -/
structure TALError where
  code : Int
  message : String
  deriving DecidableEq

/-- Modelled from the spec: the success code (`SERVICE_ERROR.E_OK`). -/
def E_OK : TALError := ⟨20000, "success"⟩

/-- Modelled from the spec: `SERVICE_ERROR.E_INTERNAL_ERROR`, returned by
`MicroserviceDemo::handler` when `parse_task` fails. -/
def E_INTERNAL_ERROR : TALError := ⟨50000, "internal error"⟩

/-- Handler `MicroserviceDemo::handler` (app.cpp): runs `parse_task` on the
by-reference `result` and maps `false` to `E_INTERNAL_ERROR`. -/
def handler (o : Oracle) (details prcision : Bool) (result : JVal) : TALError × JVal :=
  let r := parse_task o details prcision result
  if r.1 then (E_OK, r.2.1) else (E_INTERNAL_ERROR, r.2.1)

/-- Function `ImageInterface::HandleRequest` (url_request.hpp): `himg` is
`HandleImage()`'s outcome; on success the virtual `handler` runs on a fresh
`Json::Value result`; the response's `data` member is `result` only when
the final error is `E_OK`, otherwise the default-constructed (null)
`Json::Value data`. -/
def HandleRequest (himg : TALError) (o : Oracle) (details prcision : Bool) : JVal :=
  let outcome : TALError × JVal :=
    if himg ≠ E_OK then (himg, JVal.null)
    else handler o details prcision JVal.null
  let root := objSet (objSet JVal.null "code" (JVal.num outcome.1.code))
      "msg" (JVal.str outcome.1.message)
  let data := if outcome.1 = E_OK then outcome.2 else JVal.null
  objSet root "data" data

/-! ### `std::ThreadPool` (threadpool.hpp) as a small-step system

`Composion::_init` constructs the pool as `new std::ThreadPool(1)`, so one
worker suffices; tasks are identified by `Nat`.  The worker's program
counter follows the C++ worker lambda:

  * `loopTop` — about to evaluate the `while (!this->stoped)` condition;
  * `atWait` — inside `cv_task.wait(lock, [stoped || !tasks.empty()])`;
  * `running` — executing a popped task;
  * `exited` — the lambda returned.

`commit` appends a task (it is rejected once `stoped` is set); the
destructor sets `stoped` and detaches the workers. -/

inductive WPC where
  | loopTop | atWait | running | exited
  deriving DecidableEq

/-- State of the pool: the `stoped` flag, the FIFO `tasks` queue, and the
single worker's program counter. -/
structure TPState where
  stoped : Bool
  tasks : List Nat
  wpc : WPC
  deriving DecidableEq

/-- Transitions of the pool (worker lambda, `commit`, destructor). -/
inductive TStep : TPState → TPState → Prop
  | commit (s : TPState) (t : Nat) :
      s.stoped = false →
      TStep s { s with tasks := s.tasks ++ [t] }
  | stop (s : TPState) :
      TStep s { s with stoped := true }
  | exitTop (s : TPState) :
      s.wpc = .loopTop → s.stoped = true →
      TStep s { s with wpc := .exited }
  | enterWait (s : TPState) :
      s.wpc = .loopTop → s.stoped = false →
      TStep s { s with wpc := .atWait }
  | exitWait (s : TPState) :
      s.wpc = .atWait → s.stoped = true → s.tasks = [] →
      TStep s { s with wpc := .exited }
  | popTask (s : TPState) (t : Nat) (rest : List Nat) :
      s.wpc = .atWait → s.tasks = t :: rest →
      TStep s { s with wpc := .running, tasks := rest }
  | finish (s : TPState) :
      s.wpc = .running →
      TStep s { s with wpc := .loopTop }

/-- Initial pool state right after construction. -/
def TPInit : TPState := ⟨false, [], .loopTop⟩

/-- Reachable pool states. -/
inductive TReach : TPState → Prop
  | init : TReach TPInit
  | step {s s' : TPState} : TReach s → TStep s s' → TReach s'

/-! ### Concurrency structure of `Composion::parse_task` (composion.cpp)

`n` request threads each run `parse_task` once; `m` pool workers serve the
precision queue (`Composion::_init` sets `m = 1`).  A request thread's
program counter:

  * `start` — before `lock_guard(m_det_yolov5_mutex)`;
  * `inYolo` — holding `m_det_yolov5_mutex`, inside `m_yolov5->detection`;
  * `beforeDet` / `inDet` — likewise for `m_det_new_mutex` / `m_det`;
  * `afterDet` — past text detection (failure paths go to `done`);
  * `beforeRecOld` — after the optional `m_tps->commit` of the precision
    task, before `lock_guard(m_rec_old_mutex)`;
  * `inRecOld` — holding `m_rec_old_mutex`, inside `m_rec_old->detection`;
  * `waitFu` — blocked in `fu.get()`;
  * `done` — `parse_task` returned.

`prec` is each request's (immutable) precision flag.  `recNewMu` models
the declared `m_rec_new_mutex`; a worker `busy i` is inside
`m_rec_new->detection` on behalf of request `i`. -/

inductive RPC where
  | start | inYolo | beforeDet | inDet | afterDet | beforeRecOld | inRecOld | waitFu | done
  deriving DecidableEq

/-- A pool worker is idle or running the precision task of request `tid`. -/
inductive WStatus (n : Nat) where
  | idle : WStatus n
  | busy (tid : Fin n) : WStatus n
  deriving DecidableEq

/-- Global state: `n` request threads, the four mutexes of composion.hpp,
the pool queue and `m` pool workers. -/
structure Sys (n m : Nat) where
  threads : Fin n → RPC
  prec : Fin n → Bool
  yoloMu : Bool
  detMu : Bool
  recOldMu : Bool
  recNewMu : Bool
  queue : List (Fin n)
  workers : Fin m → WStatus n

/-- Transitions: each request thread walks `parse_task`; workers take
queued precision tasks and run `m_rec_new->detection`.  No transition
touches `recNewMu`: the source never locks `m_rec_new_mutex`. -/
inductive Step {n m : Nat} : Sys n m → Sys n m → Prop
  | acqYolo (s : Sys n m) (i : Fin n) :
      s.threads i = .start → s.yoloMu = false →
      Step s { s with threads := Function.update s.threads i .inYolo, yoloMu := true }
  | yoloFail (s : Sys n m) (i : Fin n) :
      s.threads i = .inYolo →
      Step s { s with threads := Function.update s.threads i .done, yoloMu := false }
  | yoloOk (s : Sys n m) (i : Fin n) :
      s.threads i = .inYolo →
      Step s { s with threads := Function.update s.threads i .beforeDet, yoloMu := false }
  | acqDet (s : Sys n m) (i : Fin n) :
      s.threads i = .beforeDet → s.detMu = false →
      Step s { s with threads := Function.update s.threads i .inDet, detMu := true }
  | detFail (s : Sys n m) (i : Fin n) :
      s.threads i = .inDet →
      Step s { s with threads := Function.update s.threads i .done, detMu := false }
  | detOk (s : Sys n m) (i : Fin n) :
      s.threads i = .inDet →
      Step s { s with threads := Function.update s.threads i .afterDet, detMu := false }
  | shortCircuit (s : Sys n m) (i : Fin n) :
      s.threads i = .afterDet →
      Step s { s with threads := Function.update s.threads i .done }
  | commitTask (s : Sys n m) (i : Fin n) :
      s.threads i = .afterDet → s.prec i = true →
      Step s { s with threads := Function.update s.threads i .beforeRecOld,
                      queue := s.queue ++ [i] }
  | skipCommit (s : Sys n m) (i : Fin n) :
      s.threads i = .afterDet → s.prec i = false →
      Step s { s with threads := Function.update s.threads i .beforeRecOld }
  | acqRecOld (s : Sys n m) (i : Fin n) :
      s.threads i = .beforeRecOld → s.recOldMu = false →
      Step s { s with threads := Function.update s.threads i .inRecOld, recOldMu := true }
  | recOldDonePrec (s : Sys n m) (i : Fin n) :
      s.threads i = .inRecOld → s.prec i = true →
      Step s { s with threads := Function.update s.threads i .waitFu, recOldMu := false }
  | recOldDoneNoPrec (s : Sys n m) (i : Fin n) :
      s.threads i = .inRecOld → s.prec i = false →
      Step s { s with threads := Function.update s.threads i .done, recOldMu := false }
  | fuGet (s : Sys n m) (i : Fin n) :
      s.threads i = .waitFu → i ∉ s.queue → (∀ w, s.workers w ≠ .busy i) →
      Step s { s with threads := Function.update s.threads i .done }
  | wTake (s : Sys n m) (w : Fin m) (i : Fin n) (rest : List (Fin n)) :
      s.workers w = .idle → s.queue = i :: rest →
      Step s { s with workers := Function.update s.workers w (.busy i), queue := rest }
  | wDone (s : Sys n m) (w : Fin m) (i : Fin n) :
      s.workers w = .busy i →
      Step s { s with workers := Function.update s.workers w .idle }

/-- Initial state: every thread at `start`, mutexes free, queue empty,
workers idle; `p` gives each request's precision flag. -/
def SysInit (n m : Nat) (p : Fin n → Bool) : Sys n m :=
  ⟨fun _ => .start, p, false, false, false, false, [], fun _ => .idle⟩

/-- Reachable global states. -/
inductive Reach (n m : Nat) (p : Fin n → Bool) : Sys n m → Prop
  | init : Reach n m p (SysInit n m p)
  | step {s s' : Sys n m} : Reach n m p s → Step s s' → Reach n m p s'

/-- Mutual-exclusion invariant of the Composion system: a thread inside a
guarded backend call holds that backend's mutex, at most one thread is
inside each guarded call, and `m_rec_new_mutex` is never taken. -/
def MuInv {n m : Nat} (s : Sys n m) : Prop :=
  (∀ i, s.threads i = .inYolo → s.yoloMu = true) ∧
  (∀ i j, s.threads i = .inYolo → s.threads j = .inYolo → i = j) ∧
  (∀ i, s.threads i = .inDet → s.detMu = true) ∧
  (∀ i j, s.threads i = .inDet → s.threads j = .inDet → i = j) ∧
  (∀ i, s.threads i = .inRecOld → s.recOldMu = true) ∧
  (∀ i j, s.threads i = .inRecOld → s.threads j = .inRecOld → i = j) ∧
  s.recNewMu = false

/-! ### Concrete executions used by counterexamples and witnesses -/

/-- One request with the precision flag set. -/
def pT : Fin 1 → Bool := fun _ => true

def sA0 : Sys 1 1 := SysInit 1 1 pT

def sA1 : Sys 1 1 := { sA0 with threads := Function.update sA0.threads 0 .inYolo, yoloMu := true }

def sA2 : Sys 1 1 := { sA1 with threads := Function.update sA1.threads 0 .beforeDet, yoloMu := false }

def sA3 : Sys 1 1 := { sA2 with threads := Function.update sA2.threads 0 .inDet, detMu := true }

def sA4 : Sys 1 1 := { sA3 with threads := Function.update sA3.threads 0 .afterDet, detMu := false }

def sA5 : Sys 1 1 := { sA4 with threads := Function.update sA4.threads 0 .beforeRecOld, queue := sA4.queue ++ [0] }

/-- The pool worker has taken the precision task: it is inside
`m_rec_new->detection` for request 0. -/
def sA6 : Sys 1 1 := { sA5 with workers := Function.update sA5.workers 0 (.busy 0), queue := [] }

/-- Request 0 additionally holds `m_rec_old_mutex` inside the baseline
call while the worker still runs the precision call. -/
def sA7 : Sys 1 1 := { sA6 with threads := Function.update sA6.threads 0 .inRecOld, recOldMu := true }

def tp0 : TPState := TPInit

def tp1 : TPState := { tp0 with tasks := tp0.tasks ++ [0] }

def tp2 : TPState := { tp1 with tasks := tp1.tasks ++ [1] }

def tp3 : TPState := { tp2 with wpc := .atWait }

def tp4 : TPState := { tp3 with wpc := .running, tasks := [1] }

def tp5 : TPState := { tp4 with wpc := .loopTop }

def tp6 : TPState := { tp5 with stoped := true }

/-- The worker re-evaluated `while (!stoped)` after finishing one task and
exited although task 1 is still queued. -/
def tp7 : TPState := { tp6 with wpc := .exited }

/-- A worker blocked in the wait when the destructor runs, with an empty
queue. -/
def tpWaitStop : TPState := { { tp0 with wpc := WPC.atWait } with stoped := true }

/-- Witness for C4: a request whose text detection found nothing. -/
def oEmpty : Oracle := ⟨0, 0, 0, 0, 0, .emptyStr, 0, .emptyStr⟩

/-- Witness for C5: precision task fails while the baseline succeeds. -/
def oPrecFail : Oracle := ⟨0, 0, 1, 1, 0, .emptyStr, 3, .emptyStr⟩

/-- Witness for C6: yolov5 failure, text-detection failure, and baseline
failure each fail fast at a concrete oracle. -/
def oYoloFail : Oracle := ⟨2, 0, 1, 1, 0, .emptyStr, 0, .emptyStr⟩

def oDetFail : Oracle := ⟨0, 5, 1, 1, 0, .emptyStr, 0, .emptyStr⟩

def oRecOldFail : Oracle := ⟨0, 0, 1, 1, 7, .emptyStr, 0, .emptyStr⟩

/-- Witness data for C7/C8/C9: a recognizer output with a title. -/
def roTitle : RecOut := .parsed (.obj [("title", .obj [("text", .str "hello")])])

/-- Witness oracle: successful pipeline, precision result available but the
request did not ask for precision. -/
def oNoPrec : Oracle := ⟨0, 0, 1, 1, 0, roTitle, 0, roTitle⟩

/-- A recognizer title/line object with text `s` and `n` characters, each
at position (0,0) with a single candidate `c` of confidence `q` (the
canonical stage output containing character data). -/
def mkCharInput (s : String) (n : Nat) (c : String) (q : Int) : JVal :=
  .obj [("text", .str s),
        ("char_pos", .arr (List.replicate n (.arr [.num 0, .num 0]))),
        ("char_arr", .arr (List.replicate n (.arr [.arr [.str c, .num q]])))]

/-- The per-character entry `parse_char_info` builds from `mkCharInput`. -/
def charEntry0 (sec c : String) (q : Int) : JVal :=
  .obj [("char_location", .arr [.obj [("x", .num 0), ("y", .num 0)]]),
        (sec, .arr [.obj [("char_ocr_result", .str c), ("char_confidence", .num q)]])]

/-- Witness oracle for C10: the baseline merge succeeds and writes into
the result tree, then the precision merge fails, so the request errors
with a partially populated tree. -/
def oPartial : Oracle := ⟨0, 0, 1, 1, 0, roTitle, 0, .malformed⟩

/-- Update at `k` with a value other than `t` cannot make `t` appear. -/
lemma update_ne_val {α β : Type} [DecidableEq α] {f : α → β} {k : α} {v t : β}
    (hv : v ≠ t) {a : α} (ha : Function.update f k v a = t) : f a = t := by
  rcases eq_or_ne a k with rfl | hak
  · rw [Function.update_same] at ha
    exact absurd ha hv
  · rwa [Function.update_noteq hak] at ha

/-- After updating `k` to a value other than `t`, `k` is not at `t`. -/
lemma update_at_key {α β : Type} [DecidableEq α] {f : α → β} {k : α} {v t : β}
    (hv : v ≠ t) {a : α} (ha : Function.update f k v a = t) : a ≠ k := by
  intro h
  subst h
  rw [Function.update_same] at ha
  exact hv ha

/-- Acquire pattern: if nobody was inside the guarded region, after the
acquiring update any two occupants coincide. -/
lemma acquire_uniq {n : Nat} {f : Fin n → RPC} {k : Fin n} {t : RPC}
    (hfree : ∀ a, f a ≠ t) {a b : Fin n}
    (ha : Function.update f k t a = t) (hb : Function.update f k t b = t) : a = b := by
  rcases eq_or_ne a k with rfl | hak
  · rcases eq_or_ne b a with rfl | hbk
    · rfl
    · rw [Function.update_noteq hbk] at hb
      exact absurd hb (hfree b)
  · rw [Function.update_noteq hak] at ha
    exact absurd ha (hfree a)

/-- Release pattern: if `k` was the unique occupant of the guarded region
and leaves it, nobody is left inside. -/
lemma release_empty {n : Nat} {f : Fin n → RPC} {k : Fin n} {v t : RPC} (hv : v ≠ t)
    (hk : f k = t) (huniq : ∀ a b, f a = t → f b = t → a = b) {a : Fin n}
    (ha : Function.update f k v a = t) : False :=
  update_at_key hv ha (huniq a k (update_ne_val hv ha) hk)

/-- Invariant `MuInv` is preserved by every transition. -/
theorem MuInv_step {n m : Nat} {s s' : Sys n m} (h : MuInv s) (hs : Step s s') :
    MuInv s' := by
  obtain ⟨hy1, hy2, hd1, hd2, hr1, hr2, hnew⟩ := h
  cases hs with
  | acqYolo i hpc hmu =>
    have hfree : ∀ a, s.threads a ≠ .inYolo := fun a ha => by
      rw [hy1 a ha] at hmu; exact Bool.noConfusion hmu
    exact ⟨fun _ _ => rfl, fun a b ha hb => acquire_uniq hfree ha hb,
      fun a ha => hd1 a (update_ne_val (by decide) ha),
      fun a b ha hb => hd2 a b (update_ne_val (by decide) ha) (update_ne_val (by decide) hb),
      fun a ha => hr1 a (update_ne_val (by decide) ha),
      fun a b ha hb => hr2 a b (update_ne_val (by decide) ha) (update_ne_val (by decide) hb),
      hnew⟩
  | yoloFail i hpc =>
    exact ⟨fun a ha => (release_empty (by decide) hpc hy2 ha).elim,
      fun a b ha hb => (release_empty (by decide) hpc hy2 ha).elim,
      fun a ha => hd1 a (update_ne_val (by decide) ha),
      fun a b ha hb => hd2 a b (update_ne_val (by decide) ha) (update_ne_val (by decide) hb),
      fun a ha => hr1 a (update_ne_val (by decide) ha),
      fun a b ha hb => hr2 a b (update_ne_val (by decide) ha) (update_ne_val (by decide) hb),
      hnew⟩
  | yoloOk i hpc =>
    exact ⟨fun a ha => (release_empty (by decide) hpc hy2 ha).elim,
      fun a b ha hb => (release_empty (by decide) hpc hy2 ha).elim,
      fun a ha => hd1 a (update_ne_val (by decide) ha),
      fun a b ha hb => hd2 a b (update_ne_val (by decide) ha) (update_ne_val (by decide) hb),
      fun a ha => hr1 a (update_ne_val (by decide) ha),
      fun a b ha hb => hr2 a b (update_ne_val (by decide) ha) (update_ne_val (by decide) hb),
      hnew⟩
  | acqDet i hpc hmu =>
    have hfree : ∀ a, s.threads a ≠ .inDet := fun a ha => by
      rw [hd1 a ha] at hmu; exact Bool.noConfusion hmu
    exact ⟨fun a ha => hy1 a (update_ne_val (by decide) ha),
      fun a b ha hb => hy2 a b (update_ne_val (by decide) ha) (update_ne_val (by decide) hb),
      fun _ _ => rfl, fun a b ha hb => acquire_uniq hfree ha hb,
      fun a ha => hr1 a (update_ne_val (by decide) ha),
      fun a b ha hb => hr2 a b (update_ne_val (by decide) ha) (update_ne_val (by decide) hb),
      hnew⟩
  | detFail i hpc =>
    exact ⟨fun a ha => hy1 a (update_ne_val (by decide) ha),
      fun a b ha hb => hy2 a b (update_ne_val (by decide) ha) (update_ne_val (by decide) hb),
      fun a ha => (release_empty (by decide) hpc hd2 ha).elim,
      fun a b ha hb => (release_empty (by decide) hpc hd2 ha).elim,
      fun a ha => hr1 a (update_ne_val (by decide) ha),
      fun a b ha hb => hr2 a b (update_ne_val (by decide) ha) (update_ne_val (by decide) hb),
      hnew⟩
  | detOk i hpc =>
    exact ⟨fun a ha => hy1 a (update_ne_val (by decide) ha),
      fun a b ha hb => hy2 a b (update_ne_val (by decide) ha) (update_ne_val (by decide) hb),
      fun a ha => (release_empty (by decide) hpc hd2 ha).elim,
      fun a b ha hb => (release_empty (by decide) hpc hd2 ha).elim,
      fun a ha => hr1 a (update_ne_val (by decide) ha),
      fun a b ha hb => hr2 a b (update_ne_val (by decide) ha) (update_ne_val (by decide) hb),
      hnew⟩
  | shortCircuit i hpc =>
    exact ⟨fun a ha => hy1 a (update_ne_val (by decide) ha),
      fun a b ha hb => hy2 a b (update_ne_val (by decide) ha) (update_ne_val (by decide) hb),
      fun a ha => hd1 a (update_ne_val (by decide) ha),
      fun a b ha hb => hd2 a b (update_ne_val (by decide) ha) (update_ne_val (by decide) hb),
      fun a ha => hr1 a (update_ne_val (by decide) ha),
      fun a b ha hb => hr2 a b (update_ne_val (by decide) ha) (update_ne_val (by decide) hb),
      hnew⟩
  | commitTask i hpc hp =>
    exact ⟨fun a ha => hy1 a (update_ne_val (by decide) ha),
      fun a b ha hb => hy2 a b (update_ne_val (by decide) ha) (update_ne_val (by decide) hb),
      fun a ha => hd1 a (update_ne_val (by decide) ha),
      fun a b ha hb => hd2 a b (update_ne_val (by decide) ha) (update_ne_val (by decide) hb),
      fun a ha => hr1 a (update_ne_val (by decide) ha),
      fun a b ha hb => hr2 a b (update_ne_val (by decide) ha) (update_ne_val (by decide) hb),
      hnew⟩
  | skipCommit i hpc hp =>
    exact ⟨fun a ha => hy1 a (update_ne_val (by decide) ha),
      fun a b ha hb => hy2 a b (update_ne_val (by decide) ha) (update_ne_val (by decide) hb),
      fun a ha => hd1 a (update_ne_val (by decide) ha),
      fun a b ha hb => hd2 a b (update_ne_val (by decide) ha) (update_ne_val (by decide) hb),
      fun a ha => hr1 a (update_ne_val (by decide) ha),
      fun a b ha hb => hr2 a b (update_ne_val (by decide) ha) (update_ne_val (by decide) hb),
      hnew⟩
  | acqRecOld i hpc hmu =>
    have hfree : ∀ a, s.threads a ≠ .inRecOld := fun a ha => by
      rw [hr1 a ha] at hmu; exact Bool.noConfusion hmu
    exact ⟨fun a ha => hy1 a (update_ne_val (by decide) ha),
      fun a b ha hb => hy2 a b (update_ne_val (by decide) ha) (update_ne_val (by decide) hb),
      fun a ha => hd1 a (update_ne_val (by decide) ha),
      fun a b ha hb => hd2 a b (update_ne_val (by decide) ha) (update_ne_val (by decide) hb),
      fun _ _ => rfl, fun a b ha hb => acquire_uniq hfree ha hb, hnew⟩
  | recOldDonePrec i hpc hp =>
    exact ⟨fun a ha => hy1 a (update_ne_val (by decide) ha),
      fun a b ha hb => hy2 a b (update_ne_val (by decide) ha) (update_ne_val (by decide) hb),
      fun a ha => hd1 a (update_ne_val (by decide) ha),
      fun a b ha hb => hd2 a b (update_ne_val (by decide) ha) (update_ne_val (by decide) hb),
      fun a ha => (release_empty (by decide) hpc hr2 ha).elim,
      fun a b ha hb => (release_empty (by decide) hpc hr2 ha).elim, hnew⟩
  | recOldDoneNoPrec i hpc hp =>
    exact ⟨fun a ha => hy1 a (update_ne_val (by decide) ha),
      fun a b ha hb => hy2 a b (update_ne_val (by decide) ha) (update_ne_val (by decide) hb),
      fun a ha => hd1 a (update_ne_val (by decide) ha),
      fun a b ha hb => hd2 a b (update_ne_val (by decide) ha) (update_ne_val (by decide) hb),
      fun a ha => (release_empty (by decide) hpc hr2 ha).elim,
      fun a b ha hb => (release_empty (by decide) hpc hr2 ha).elim, hnew⟩
  | fuGet i hpc hq hw =>
    exact ⟨fun a ha => hy1 a (update_ne_val (by decide) ha),
      fun a b ha hb => hy2 a b (update_ne_val (by decide) ha) (update_ne_val (by decide) hb),
      fun a ha => hd1 a (update_ne_val (by decide) ha),
      fun a b ha hb => hd2 a b (update_ne_val (by decide) ha) (update_ne_val (by decide) hb),
      fun a ha => hr1 a (update_ne_val (by decide) ha),
      fun a b ha hb => hr2 a b (update_ne_val (by decide) ha) (update_ne_val (by decide) hb),
      hnew⟩
  | wTake w i rest hw hq =>
    exact ⟨hy1, hy2, hd1, hd2, hr1, hr2, hnew⟩
  | wDone w i hw =>
    exact ⟨hy1, hy2, hd1, hd2, hr1, hr2, hnew⟩

/-- Every reachable state satisfies the invariant. -/
theorem MuInv_reach {n m : Nat} {p : Fin n → Bool} {s : Sys n m}
    (h : Reach n m p s) : MuInv s := by
  induction h with
  | init =>
    exact ⟨fun i hi => RPC.noConfusion hi, fun i j hi _ => RPC.noConfusion hi,
      fun i hi => RPC.noConfusion hi, fun i j hi _ => RPC.noConfusion hi,
      fun i hi => RPC.noConfusion hi, fun i j hi _ => RPC.noConfusion hi, rfl⟩
  | step _ hs ih => exact MuInv_step ih hs

lemma reach_sA6 : Reach 1 1 pT sA6 :=
  Reach.step (Reach.step (Reach.step (Reach.step (Reach.step (Reach.step Reach.init
    (Step.acqYolo sA0 0 rfl rfl))
    (Step.yoloOk sA1 0 (by decide)))
    (Step.acqDet sA2 0 (by decide) rfl))
    (Step.detOk sA3 0 (by decide)))
    (Step.commitTask sA4 0 (by decide) rfl))
    (Step.wTake sA5 0 0 [] (by decide) (by decide))

lemma reach_sA7 : Reach 1 1 pT sA7 :=
  Reach.step reach_sA6 (Step.acqRecOld sA6 0 (by decide) rfl)

lemma reach_tp6 : TReach tp6 :=
  TReach.step (TReach.step (TReach.step (TReach.step (TReach.step (TReach.step TReach.init
    (TStep.commit tp0 0 rfl))
    (TStep.commit tp1 1 rfl))
    (TStep.enterWait tp2 rfl rfl))
    (TStep.popTask tp3 0 [1] rfl rfl))
    (TStep.finish tp4 rfl))
    (TStep.stop tp5)

lemma reach_tp7 : TReach tp7 :=
  TReach.step reach_tp6 (TStep.exitTop tp6 rfl rfl)

lemma reach_tpWaitStop : TReach tpWaitStop :=
  TReach.step (TReach.step TReach.init (TStep.enterWait tp0 rfl rfl))
    (TStep.stop { tp0 with wpc := WPC.atWait })

/-! ### Claims C1, C2, C3 -/

/-- Claim C1: for each of the four inference resources at most one call is
in flight at any instant across all concurrently executing requests.
Threads inside the yolov5 / text-detection / baseline-recognition calls
are unique and hold the corresponding mutex, and precision-recognition
calls run only on the pool's single worker (`ThreadPool(1)` in
`Composion::_init`), so any two in-flight precision calls are on the same
worker. -/
theorem C1_resource_exclusivity {n : Nat} (p : Fin n → Bool) (s : Sys n 1)
    (hs : Reach n 1 p s) :
    ((∀ i j, s.threads i = .inYolo → s.threads j = .inYolo → i = j) ∧
      (∀ i, s.threads i = .inYolo → s.yoloMu = true)) ∧
    ((∀ i j, s.threads i = .inDet → s.threads j = .inDet → i = j) ∧
      (∀ i, s.threads i = .inDet → s.detMu = true)) ∧
    ((∀ i j, s.threads i = .inRecOld → s.threads j = .inRecOld → i = j) ∧
      (∀ i, s.threads i = .inRecOld → s.recOldMu = true)) ∧
    (∀ (w w' : Fin 1) (a b : Fin n),
      s.workers w = .busy a → s.workers w' = .busy b → w = w') := by
  obtain ⟨hy1, hy2, hd1, hd2, hr1, hr2, _⟩ := MuInv_reach hs
  exact ⟨⟨hy2, hy1⟩, ⟨hd2, hd1⟩, ⟨hr2, hr1⟩,
    fun w w' _ _ _ _ => Subsingleton.elim w w'⟩

/-- Witness for C1 at a concrete reachable state in which request 0 is
inside the baseline call and the worker runs the precision call. -/
theorem C1_resource_exclusivity_witness :
    sA7.recOldMu = true ∧ (0 : Fin 1) = 0 :=
  ⟨(C1_resource_exclusivity pT sA7 reach_sA7).2.2.1.2 0 (by decide),
   (C1_resource_exclusivity pT sA7 reach_sA7).2.2.2 0 0 0 0 (by decide) (by decide)⟩

/-- Claim C2 is false on the code: it is not the case that every in-flight
`m_rec_new->detection` call holds `m_rec_new_mutex`.  In the reachable
state `sA6` the worker is inside the precision call while the mutex is
free — `parse_task` commits the lambda without any `lock_guard`. -/
theorem C2_counterexample :
    ¬ (∀ s : Sys 1 1, Reach 1 1 pT s →
        ∀ (w : Fin 1) (i : Fin 1), s.workers w = .busy i → s.recNewMu = true) := by
  intro h
  have := h sA6 reach_sA6 0 0 (by decide)
  exact absurd this (by decide)

/-- Claim C2 (amended): the precision-recognize call is not protected by
`m_rec_new_mutex`; that mutex is declared in composion.hpp but never
locked, so it is false in every reachable state, including while the
worker runs `m_rec_new->detection`.  Exclusivity of the precision
recognizer comes only from the pool's single worker, while the baseline
call does hold `m_rec_old_mutex`. -/
theorem C2_amended {n : Nat} (p : Fin n → Bool) (s : Sys n 1) (hs : Reach n 1 p s) :
    s.recNewMu = false ∧
    (∀ i, s.threads i = .inRecOld → s.recOldMu = true) ∧
    (∀ (w w' : Fin 1) (a b : Fin n),
      s.workers w = .busy a → s.workers w' = .busy b → w = w') := by
  obtain ⟨_, _, _, _, hr1, _, hnew⟩ := MuInv_reach hs
  exact ⟨hnew, hr1, fun w w' _ _ _ _ => Subsingleton.elim w w'⟩

/-- Witness for the amended C2 at the state `sA7`. -/
theorem C2_amended_witness : sA7.recNewMu = false ∧ sA7.recOldMu = true :=
  ⟨(C2_amended pT sA7 reach_sA7).1,
   (C2_amended pT sA7 reach_sA7).2.1 0 (by decide)⟩

/-- Claim C3 is false on the code: a worker can exit while the task queue
is non-empty.  In the reachable state `tp7` the worker has exited (it saw
`stoped` at the outer `while` after finishing task 0) with task 1 still
queued. -/
theorem C3_counterexample :
    ¬ (∀ s : TPState, TReach s → s.wpc = .exited → s.tasks = []) := by
  intro h
  have := h tp7 reach_tp7 (by decide)
  exact absurd this (by decide)

/-- Claim C3 (amended): only the exit taken from inside the condition wait
guarantees a drained queue — a worker that leaves `cv_task.wait` for
`return` does so exactly when `stoped` is set and the queue is empty at
that check.  A worker that instead re-evaluates the outer
`while (!stoped)` condition exits as soon as `stoped` is set, even when
tasks remain queued, so queued tasks can be abandoned. -/
theorem C3_amended :
    (∀ s s' : TPState, TReach s → TStep s s' → s.wpc = .atWait →
      s'.wpc = .exited → s.tasks = []) ∧
    (∀ s : TPState, s.wpc = .loopTop → s.stoped = true →
      TStep s { s with wpc := WPC.exited }) := by
  constructor
  · intro s s' _ hst hwait hex
    cases hst with
    | commit t hstop => exact absurd (hwait.symm.trans hex) (by decide)
    | stop => exact absurd (hwait.symm.trans hex) (by decide)
    | exitTop hpc _ => exact absurd (hpc.symm.trans hwait) (by decide)
    | enterWait hpc _ => exact WPC.noConfusion hex
    | exitWait _ _ hempty => exact hempty
    | popTask t rest hpc hq => exact WPC.noConfusion hex
    | finish hpc => exact absurd (hpc.symm.trans hwait) (by decide)
  · intro s hpc hstop
    exact TStep.exitTop s hpc hstop

/-- Witness for the amended C3: the wait-path exit at `tpWaitStop` has an
empty queue, and from `tp6` (stopped, task 1 queued) the loop-top exit
step is enabled. -/
theorem C3_amended_witness :
    tpWaitStop.tasks = [] ∧ TStep tp6 { tp6 with wpc := WPC.exited } :=
  ⟨C3_amended.1 tpWaitStop { tpWaitStop with wpc := WPC.exited } reach_tpWaitStop
      (TStep.exitWait tpWaitStop rfl rfl rfl) rfl rfl,
   C3_amended.2 tp6 rfl rfl⟩

/-! ### Claims C4, C5, C6 -/

/-- Claim C4: when both detection stages succeed and the text-detection
output has zero cropped images or zero text polygons, `parse_task`
returns success with the caller's result tree untouched (empty if it was
empty), and neither the baseline nor the precision recognizer is
invoked. -/
theorem C4_empty_short_circuit (o : Oracle) (details prcision : Bool) (r : JVal)
    (hy : o.yoloRet = 0) (hd : o.detRet = 0)
    (he : o.imgCount = 0 ∨ o.polyCount = 0) :
    parse_task o details prcision r = (true, r, [Ev.yolo, Ev.det]) ∧
    Ev.recOld ∉ (parse_task o details prcision r).2.2 ∧
    Ev.recNew ∉ (parse_task o details prcision r).2.2 := by
  have h1 : parse_task o details prcision r = (true, r, [Ev.yolo, Ev.det]) := by
    unfold parse_task
    rw [if_neg (by simp [hy]), if_neg (by simp [hd]), if_pos he]
  refine ⟨h1, ?_, ?_⟩ <;> rw [h1] <;> simp

theorem C4_empty_short_circuit_witness :
    parse_task oEmpty true true .null = (true, .null, [Ev.yolo, Ev.det]) :=
  (C4_empty_short_circuit oEmpty true true .null rfl rfl (Or.inl rfl)).1

/-- Claim C5: whenever the precision task was submitted (precision flag
set, both detections succeeded, non-empty detection bundle), `fu.get()`
is executed before `parse_task` returns; and if the precision task's
status is non-zero the whole request fails with the result untouched —
regardless of the baseline status, so no baseline-only partial success
exists. -/
theorem C5_precision_joined (o : Oracle) (details : Bool) (r : JVal)
    (hy : o.yoloRet = 0) (hd : o.detRet = 0) (hi : o.imgCount ≠ 0)
    (hp : o.polyCount ≠ 0) :
    Ev.fuGet ∈ (parse_task o details true r).2.2 ∧
    (o.recNewRet ≠ 0 →
      (parse_task o details true r).1 = false ∧
      (parse_task o details true r).2.1 = r) := by
  by_cases hn : o.recNewRet ≠ 0
  · have h1 : parse_task o details true r =
        (false, r, [Ev.yolo, Ev.det, Ev.recNew, Ev.recOld, Ev.fuGet]) := by
      unfold parse_task
      rw [if_neg (by simp [hy]), if_neg (by simp [hd]), if_neg (by simp [hi, hp]),
        if_pos ⟨rfl, hn⟩]
    rw [h1]
    exact ⟨by simp, fun _ => ⟨rfl, rfl⟩⟩
  · refine ⟨?_, fun h => absurd h hn⟩
    unfold parse_task
    rw [if_neg (by simp [hy]), if_neg (by simp [hd]), if_neg (by simp [hi, hp]),
      if_neg (by simp [hn])]
    by_cases ho : o.recOldRet ≠ 0
    · rw [if_pos ho]
      simp
    · rw [if_neg ho]
      rcases hpr : parse_result o.recOldOut r details false with ⟨b, r1⟩
      cases b
      · simp [hpr]
      · rcases hpr2 : parse_result o.recNewOut r1 details true with ⟨b2, r2⟩
        cases b2 <;> simp [hpr, hpr2]

theorem C5_precision_joined_witness :
    Ev.fuGet ∈ (parse_task oPrecFail true true .null).2.2 ∧
    ((parse_task oPrecFail true true .null).1 = false ∧
      (parse_task oPrecFail true true .null).2.1 = .null) :=
  ⟨(C5_precision_joined oPrecFail true .null rfl rfl (by decide) (by decide)).1,
   (C5_precision_joined oPrecFail true .null rfl rfl (by decide) (by decide)).2 (by decide)⟩

/-- Claim C6: an inference-stage failure makes `parse_task` fail fast:
yolov5 failure stops before text detection, text-detection failure stops
before recognition, and a recognizer failure (baseline, or precision when
requested) fails the request before any merging, with the result tree
untouched in all cases. -/
theorem C6_stage_failure_fail_fast (o : Oracle) (details prcision : Bool) (r : JVal) :
    (o.yoloRet ≠ 0 → parse_task o details prcision r = (false, r, [Ev.yolo])) ∧
    (o.yoloRet = 0 → o.detRet ≠ 0 →
      parse_task o details prcision r = (false, r, [Ev.yolo, Ev.det])) ∧
    (o.yoloRet = 0 → o.detRet = 0 → o.imgCount ≠ 0 → o.polyCount ≠ 0 →
      (o.recOldRet ≠ 0 ∨ (prcision = true ∧ o.recNewRet ≠ 0)) →
      (parse_task o details prcision r).1 = false ∧
      (parse_task o details prcision r).2.1 = r ∧
      Ev.mergeOld ∉ (parse_task o details prcision r).2.2 ∧
      Ev.mergeNew ∉ (parse_task o details prcision r).2.2) := by
  refine ⟨?_, ?_, ?_⟩
  · intro hy
    unfold parse_task
    rw [if_pos hy]
  · intro hy hd
    unfold parse_task
    rw [if_neg (by simp [hy]), if_pos hd]
  · intro hy hd hi hp hfail
    by_cases hn : prcision = true ∧ o.recNewRet ≠ 0
    · have h1 : parse_task o details prcision r =
          (false, r, [Ev.yolo, Ev.det, Ev.recNew, Ev.recOld, Ev.fuGet]) := by
        unfold parse_task
        rw [if_neg (by simp [hy]), if_neg (by simp [hd]), if_neg (by simp [hi, hp]),
          if_pos hn]
      rw [h1]
      exact ⟨rfl, rfl, by simp, by simp⟩
    · have ho : o.recOldRet ≠ 0 := by
        rcases hfail with h | h
        · exact h
        · exact absurd h hn
      have h1 : parse_task o details prcision r =
          (false, r,
            [Ev.yolo, Ev.det] ++ (if prcision then [Ev.recNew] else []) ++ [Ev.recOld]
              ++ (if prcision then [Ev.fuGet] else [])) := by
        unfold parse_task
        rw [if_neg (by simp [hy]), if_neg (by simp [hd]), if_neg (by simp [hi, hp]),
          if_neg hn, if_pos ho]
      rw [h1]
      refine ⟨rfl, rfl, ?_, ?_⟩ <;> cases prcision <;> simp

theorem C6_stage_failure_fail_fast_witness :
    parse_task oYoloFail false false .null = (false, .null, [Ev.yolo]) ∧
    parse_task oDetFail false false .null = (false, .null, [Ev.yolo, Ev.det]) ∧
    ((parse_task oRecOldFail false false .null).1 = false ∧
      (parse_task oRecOldFail false false .null).2.1 = .null ∧
      Ev.mergeOld ∉ (parse_task oRecOldFail false false .null).2.2 ∧
      Ev.mergeNew ∉ (parse_task oRecOldFail false false .null).2.2) :=
  ⟨(C6_stage_failure_fail_fast oYoloFail false false .null).1 (by decide),
   (C6_stage_failure_fail_fast oDetFail false false .null).2.1 rfl (by decide),
   (C6_stage_failure_fail_fast oRecOldFail false false .null).2.2 rfl rfl (by decide)
     (by decide) (Or.inl (by decide))⟩

/-! ### Object/array lemmas for the merger claims -/

lemma getField_setField (fs : List (String × JVal)) (k k' : String) (v : JVal) :
    getField (setField fs k v) k' = if k = k' then some v else getField fs k' := by
  induction fs with
  | nil => simp [setField, getField]
  | cons p fs ih =>
    obtain ⟨k0, v0⟩ := p
    by_cases h0 : k0 = k
    · subst h0
      by_cases hk : k0 = k'
      · subst hk
        simp [setField, getField]
      · simp [setField, getField, hk]
    · by_cases h1 : k0 = k'
      · subst h1
        have hkk : ¬ k = k0 := fun h => h0 h.symm
        simp [setField, getField, h0, hkk]
      · simp [setField, getField, h0, h1, ih]

lemma isMemberB_objSet {r : JVal} {k k' : String} {v : JVal}
    (h : isMemberB (objSet r k v) k' = true) : k' = k ∨ isMemberB r k' = true := by
  cases r with
  | null =>
    left
    by_cases hk : k = k'
    · exact hk.symm
    · simp [objSet, isMemberB, getField, hk] at h
  | obj fs =>
    by_cases hk : k = k'
    · exact Or.inl hk.symm
    · right
      simpa [objSet, isMemberB, getField_setField, hk] using h
  | bool b => exact Or.inr h
  | num x => exact Or.inr h
  | str s => exact Or.inr h
  | arr xs => exact Or.inr h

lemma objGetD_objSet_ne {r : JVal} {k k' : String} {v : JVal} (h : ¬ k = k') :
    objGetD (objSet r k v) k' = objGetD r k' := by
  cases r with
  | null => simp [objSet, objGetD, getField, h]
  | obj fs => simp [objSet, objGetD, getField_setField, h]
  | bool b => rfl
  | num x => rfl
  | str s => rfl
  | arr xs => rfl

lemma objGetD_objSet_same (r : JVal) (k : String) (v : JVal) :
    objGetD (objSet r k v) k = v ∨ objSet r k v = r := by
  cases r with
  | null => left; simp [objSet, objGetD, getField]
  | obj fs => left; simp [objSet, objGetD, getField_setField]
  | bool b => right; rfl
  | num x => right; rfl
  | str s => right; rfl
  | arr xs => right; rfl

lemma objGetD_of_not_member {r : JVal} {k : String} (h : isMemberB r k = false) :
    objGetD r k = .null := by
  cases r with
  | obj fs =>
    simp only [isMemberB] at h
    rcases hg : getField fs k with _ | w
    · simp [objGetD, hg]
    · rw [hg] at h
      exact Bool.noConfusion h
  | null => rfl
  | bool b => rfl
  | num x => rfl
  | str s => rfl
  | arr xs => rfl

lemma get_replicate {α : Type} (a : α) : ∀ (n i : Nat), i < n →
    (List.replicate n a)[i]? = some a := by
  intro n
  induction n with
  | zero => intro i h; omega
  | succ n ih =>
    intro i h
    cases i with
    | zero => rw [List.replicate_succ, List.getElem?_cons_zero]
    | succ i =>
      rw [List.replicate_succ, List.getElem?_cons_succ]
      exact ih i (by omega)

lemma elems_appendE {a v b : JVal} (h : appendE a v = .ok b) :
    elems b = elems a ++ [v] := by
  cases a with
  | null =>
    simp only [appendE, Except.ok.injEq] at h
    subst h; rfl
  | arr xs =>
    simp only [appendE, Except.ok.injEq] at h
    subst h; simp [elems]
  | bool b2 => exact Except.noConfusion h
  | num x => exact Except.noConfusion h
  | str s => exact Except.noConfusion h
  | obj fs => exact Except.noConfusion h

/-- A section merge only ever adds the member `key` to the result. -/
lemma mergeSection_members (f : JVal → JVal → Bool → Except JVal JVal)
    (root result : JVal) (key memberKey : String) (d : Bool) {k : String}
    (h : isMemberB (mergeSection f root result key memberKey d).2 k = true) :
    k = key ∨ isMemberB result k = true := by
  unfold mergeSection at h
  rcases hm : isMemberE root memberKey with e | mt
  · simp only [hm] at h
    exact Or.inr h
  · simp only [hm] at h
    cases mt with
    | false => exact Or.inr h
    | true =>
      simp only [if_true] at h
      rcases hg : objGetE result key with e | cur
      · simp only [hg] at h
        exact Or.inr h
      · simp only [hg] at h
        rcases hf : f cur (objGetD root memberKey) d with part | v
        · simp only [hf] at h
          exact isMemberB_objSet h
        · simp only [hf] at h
          exact isMemberB_objSet h

/-- Function `parse_result` only ever adds the two section keys selected by the
precision parameter. -/
lemma parse_result_members (ro : RecOut) (result : JVal) (d p : Bool) {k : String}
    (h : isMemberB (parse_result ro result d p).2 k = true) :
    k = (if p then "title_info_sec" else "title_info") ∨
    k = (if p then "essay_info_sec" else "essay_info") ∨
    isMemberB result k = true := by
  cases ro with
  | emptyStr => exact Or.inr (Or.inr h)
  | malformed => exact Or.inr (Or.inr h)
  | parsed root =>
    simp only [parse_result] at h
    rcases hm : mergeSection parse_title_info root result
        (if p then "title_info_sec" else "title_info") "title" d with ⟨b1, r1⟩
    simp only [hm] at h
    cases b1 with
    | false =>
      have h' : isMemberB (mergeSection parse_title_info root result
          (if p then "title_info_sec" else "title_info") "title" d).2 k = true := by
        rw [hm]; exact h
      rcases mergeSection_members _ _ _ _ _ _ h' with h1 | h1
      · exact Or.inl h1
      · exact Or.inr (Or.inr h1)
    | true =>
      rcases mergeSection_members _ _ _ _ _ _ h with h1 | h1
      · exact Or.inr (Or.inl h1)
      · have h' : isMemberB (mergeSection parse_title_info root result
            (if p then "title_info_sec" else "title_info") "title" d).2 k = true := by
          rw [hm]; exact h1
        rcases mergeSection_members _ _ _ _ _ _ h' with h2 | h2
        · exact Or.inl h2
        · exact Or.inr (Or.inr h2)

/-- With the precision flag false, the final result of `parse_task` is
either the caller's tree or the baseline merge of it. -/
lemma parse_task_result_noprec (o : Oracle) (d : Bool) (r : JVal) :
    (parse_task o d false r).2.1 = r ∨
    (parse_task o d false r).2.1 = (parse_result o.recOldOut r d false).2 := by
  unfold parse_task
  by_cases h1 : o.yoloRet ≠ 0
  · rw [if_pos h1]; exact Or.inl rfl
  · rw [if_neg h1]
    by_cases h2 : o.detRet ≠ 0
    · rw [if_pos h2]; exact Or.inl rfl
    · rw [if_neg h2]
      by_cases h3 : o.imgCount = 0 ∨ o.polyCount = 0
      · rw [if_pos h3]; exact Or.inl rfl
      · rw [if_neg h3, if_neg (by simp)]
        by_cases h5 : o.recOldRet ≠ 0
        · rw [if_pos h5]; exact Or.inl rfl
        · rw [if_neg h5]
          rcases hpr : parse_result o.recOldOut r d false with ⟨b, r1⟩
          cases b <;> simp [hpr]

/-- Claim C7: merging with the precision parameter false never produces a
`_sec` keyed section.  `parse_result(.., prcision=false)` adds only the
`title_info` / `essay_info` keys, whatever the recognizer output contains,
and a whole `parse_task` run with the precision flag false likewise never
adds `title_info_sec` or `essay_info_sec` to the result tree. -/
theorem C7_no_sec_sections_without_precision :
    (∀ (ro : RecOut) (r : JVal) (d : Bool) (k : String),
      k = "title_info_sec" ∨ k = "essay_info_sec" → isMemberB r k = false →
      isMemberB (parse_result ro r d false).2 k = false) ∧
    (∀ (o : Oracle) (d : Bool) (r : JVal) (k : String),
      k = "title_info_sec" ∨ k = "essay_info_sec" → isMemberB r k = false →
      isMemberB (parse_task o d false r).2.1 k = false) := by
  have main : ∀ (ro : RecOut) (r : JVal) (d : Bool) (k : String),
      k = "title_info_sec" ∨ k = "essay_info_sec" → isMemberB r k = false →
      isMemberB (parse_result ro r d false).2 k = false := by
    intro ro r d k hk hr
    cases h : isMemberB (parse_result ro r d false).2 k with
    | false => rfl
    | true =>
      rcases parse_result_members ro r d false h with h1 | h1 | h1
      · rcases hk with rfl | rfl
        · exact absurd h1 (by decide)
        · exact absurd h1 (by decide)
      · rcases hk with rfl | rfl
        · exact absurd h1 (by decide)
        · exact absurd h1 (by decide)
      · rw [hr] at h1
        exact Bool.noConfusion h1
  refine ⟨main, fun o d r k hk hr => ?_⟩
  rcases parse_task_result_noprec o d r with h | h
  · rw [h]; exact hr
  · rw [h]; exact main o.recOldOut r d k hk hr

theorem C7_no_sec_sections_without_precision_witness :
    isMemberB (parse_result roTitle .null true false).2 "title_info_sec" = false ∧
    isMemberB (parse_task oNoPrec false false .null).2.1 "essay_info_sec" = false :=
  ⟨C7_no_sec_sections_without_precision.1 roTitle .null true _ (Or.inl rfl) rfl,
   C7_no_sec_sections_without_precision.2 oNoPrec false .null _ (Or.inr rfl) rfl⟩

/-- Full case analysis of `parse_title_info`: it returns the result
unchanged (ok or error), or writes `title_ocr_result` with a non-null,
non-empty text value, adding `title_char_info` exactly when `details` is
true. -/
lemma parse_title_info_main (res input : JVal) (d : Bool) :
    parse_title_info res input d = .ok res ∨
    parse_title_info res input d = .error res ∨
    (∃ t, t ≠ JVal.null ∧ t ≠ JVal.str "" ∧
      ((d = false ∧ parse_title_info res input d = .ok (objSet res "title_ocr_result" t)) ∨
       (d = true ∧ ∃ sub,
         (parse_title_info res input d =
            .ok (objSet (objSet res "title_ocr_result" t) "title_char_info" sub) ∨
          parse_title_info res input d =
            .error (objSet (objSet res "title_ocr_result" t) "title_char_info" sub))))) := by
  unfold parse_title_info
  by_cases h0 : size input = 0
  · rw [if_pos h0]
    exact Or.inl rfl
  rw [if_neg h0]
  rcases hm : isMemberE input "text" with e | mt
  · simp [hm]
  cases mt with
  | false =>
    simp [hm]
  | true =>
    simp only [hm]
    by_cases ht : isNull (objGetD input "text") = true
    · rw [if_pos ht]
      exact Or.inl rfl
    rw [if_neg ht]
    rcases hs : asStringE (objGetD input "text") with e | s
    · simp [hs]
    simp only [hs]
    by_cases hlen : s.length = 0
    · rw [if_pos hlen]
      exact Or.inl rfl
    rw [if_neg hlen]
    have ht' : objGetD input "text" ≠ JVal.null := by
      intro hh
      rw [hh] at ht
      exact ht rfl
    have hts : objGetD input "text" ≠ JVal.str "" := by
      intro hh
      rw [hh] at hs
      simp only [asStringE, Except.ok.injEq] at hs
      exact hlen (by rw [← hs]; rfl)
    rcases hw : objGetE res "title_ocr_result" with e | w
    · simp [hw]
    simp only [hw]
    cases d with
    | false =>
      refine Or.inr (Or.inr ⟨objGetD input "text", ht', hts, Or.inl ⟨rfl, ?_⟩⟩)
      simp
    | true =>
      refine Or.inr (Or.inr ⟨objGetD input "text", ht', hts, Or.inr ⟨rfl, ?_⟩⟩)
      simp only [Bool.not_true, Bool.false_eq_true, if_false]
      rcases hc : parse_char_info
          (objGetD (objSet res "title_ocr_result" (objGetD input "text")) "title_char_info")
          input "char_ocr_topn" with part | sub
      · simp only [hc]
        exact ⟨part, Or.inr rfl⟩
      · simp only [hc]
        exact ⟨sub, Or.inl rfl⟩

/-- Skip behaviour of `parse_title_info`: a missing, null, or empty text
member writes nothing. -/
lemma parse_title_info_skip (res : JVal) (fs : List (String × JVal)) (d : Bool)
    (h : getField fs "text" = none ∨ getField fs "text" = some JVal.null ∨
         getField fs "text" = some (JVal.str "")) :
    parse_title_info res (.obj fs) d = .ok res := by
  unfold parse_title_info
  by_cases h0 : size (JVal.obj fs) = 0
  · rw [if_pos h0]
  · rw [if_neg h0]
    rcases h with h | h | h
    · simp [isMemberE, h]
    · simp [isMemberE, h, objGetD, isNull]
    · simp [isMemberE, h, objGetD, isNull, asStringE]

/-- Skip behaviour of the line loop: a null or empty text leaves the
state unchanged. -/
lemma lineStep_skip (d : Bool) (st : JVal × Bool) (line : JVal)
    (h : objGetE line "text" = .ok JVal.null ∨ objGetE line "text" = .ok (JVal.str "")) :
    lineStep d st line = .ok st := by
  unfold lineStep
  rcases h with h | h
  · simp [h, isNull]
  · simp [h, isNull, asStringE]

lemma foldlM_lineStep_skip (d : Bool) (ls : List JVal)
    (h : ∀ l ∈ ls, objGetE l "text" = .ok JVal.null ∨ objGetE l "text" = .ok (JVal.str "")) :
    ∀ st : JVal × Bool, ls.foldlM (lineStep d) st = .ok st := by
  induction ls with
  | nil => intro st; rfl
  | cons l ls ih =>
    intro st
    have h1 := lineStep_skip d st l (h l (List.mem_cons_self l ls))
    have h2 : ∀ l2 ∈ ls, objGetE l2 "text" = .ok JVal.null ∨
        objGetE l2 "text" = .ok (JVal.str "") :=
      fun l2 hm => h l2 (List.mem_cons_of_mem l hm)
    simp only [List.foldlM, h1]
    exact ih h2 st

/-- Skip behaviour of the paragraph loop: if every line is null/empty no
`para_ocr_result` entry is appended. -/
lemma paraStep_skip (d : Bool) (res para : JVal)
    (h : ∀ l ∈ elems para, objGetE l "text" = .ok JVal.null ∨
         objGetE l "text" = .ok (JVal.str "")) :
    paraStep d res para = .ok res := by
  unfold paraStep
  rw [foldlM_lineStep_skip d (elems para) h (JVal.null, false)]
  rfl

/-- Full case analysis of one successful line step: either the line was
skipped, or exactly one entry was appended whose `line_ocr_result` is a
non-null, non-empty text value, carrying `line_char_info` exactly when
`details` is true. -/
lemma lineStep_ok_cases (d : Bool) (st : JVal × Bool) (line : JVal) (st' : JVal × Bool)
    (h : lineStep d st line = .ok st') :
    st' = st ∨
    ∃ info, appendE st.1 info = .ok st'.1 ∧ st'.2 = true ∧
      ∃ t, t ≠ JVal.null ∧ t ≠ JVal.str "" ∧
        ((d = false ∧ info = objSet .null "line_ocr_result" t) ∨
         (d = true ∧ ∃ sub,
           info = objSet (objSet .null "line_ocr_result" t) "line_char_info" sub)) := by
  unfold lineStep at h
  rcases hg : objGetE line "text" with e | t
  · simp only [hg] at h
    exact Except.noConfusion h
  · simp only [hg] at h
    by_cases ht : isNull t = true
    · rw [if_pos ht] at h
      exact Or.inl (Except.ok.inj h).symm
    rw [if_neg ht] at h
    rcases hs : asStringE t with e | s
    · simp only [hs] at h
      exact Except.noConfusion h
    simp only [hs] at h
    by_cases hlen : s.length = 0
    · rw [if_pos hlen] at h
      exact Or.inl (Except.ok.inj h).symm
    rw [if_neg hlen] at h
    have ht' : t ≠ JVal.null := by
      intro hh
      rw [hh] at ht
      exact ht rfl
    have hts : t ≠ JVal.str "" := by
      intro hh
      rw [hh] at hs
      simp only [asStringE, Except.ok.injEq] at hs
      exact hlen (by rw [← hs]; rfl)
    cases d with
    | false =>
      simp only [Bool.false_eq_true, if_false] at h
      rcases ha : appendE st.1 (objSet .null "line_ocr_result" t) with e | lines2
      · simp only [ha] at h
        exact Except.noConfusion h
      · simp only [ha] at h
        have hst : st' = (lines2, true) := (Except.ok.inj h).symm
        subst hst
        exact Or.inr ⟨objSet .null "line_ocr_result" t, ha, rfl, t, ht', hts,
          Or.inl ⟨rfl, rfl⟩⟩
    | true =>
      simp only [if_true] at h
      rcases hc : parse_char_info (objGetD (objSet .null "line_ocr_result" t) "line_char_info")
          line "line_char_topn" with part | sub
      · simp only [hc] at h
        exact Except.noConfusion h
      · simp only [hc] at h
        rcases ha : appendE st.1 (objSet (objSet .null "line_ocr_result" t) "line_char_info" sub)
            with e | lines2
        · simp only [ha] at h
          exact Except.noConfusion h
        · simp only [ha] at h
          have hst : st' = (lines2, true) := (Except.ok.inj h).symm
          subst hst
          exact Or.inr ⟨objSet (objSet .null "line_ocr_result" t) "line_char_info" sub,
            ha, rfl, t, ht', hts, Or.inr ⟨rfl, sub, rfl⟩⟩

/-- Claim C9: the merger filters out empty entries.  A title whose text
member is missing, null, or the empty string contributes no
`title_ocr_result`; a line whose text is null or empty is skipped; a
paragraph all of whose lines are empty contributes no `para_ocr_result`
entry; and any `title_ocr_result` / `line_ocr_result` value actually
written is neither null nor the empty string. -/
theorem C9_empty_entries_filtered :
    (∀ (res : JVal) (fs : List (String × JVal)) (d : Bool),
      getField fs "text" = none ∨ getField fs "text" = some JVal.null ∨
        getField fs "text" = some (JVal.str "") →
      parse_title_info res (.obj fs) d = .ok res) ∧
    (∀ (d : Bool) (st : JVal × Bool) (line : JVal),
      objGetE line "text" = .ok JVal.null ∨ objGetE line "text" = .ok (JVal.str "") →
      lineStep d st line = .ok st) ∧
    (∀ (d : Bool) (res para : JVal),
      (∀ l ∈ elems para, objGetE l "text" = .ok JVal.null ∨
        objGetE l "text" = .ok (JVal.str "")) →
      paraStep d res para = .ok res) ∧
    (∀ (res input : JVal) (d : Bool) (out : JVal),
      parse_title_info res input d = .ok out ∨ parse_title_info res input d = .error out →
      objGetD out "title_ocr_result" = objGetD res "title_ocr_result" ∨
      (objGetD out "title_ocr_result" ≠ JVal.null ∧
       objGetD out "title_ocr_result" ≠ JVal.str "")) ∧
    (∀ (d : Bool) (st : JVal × Bool) (line : JVal) (st' : JVal × Bool),
      lineStep d st line = .ok st' →
      ∀ v ∈ elems st'.1, v ∈ elems st.1 ∨
        (objGetD v "line_ocr_result" ≠ JVal.null ∧
         objGetD v "line_ocr_result" ≠ JVal.str "")) := by
  refine ⟨parse_title_info_skip, lineStep_skip, paraStep_skip, ?_, ?_⟩
  · intro res input d out hout
    rcases parse_title_info_main res input d with hmain | hmain | ⟨t, ht, hts, hcase⟩
    · rcases hout with hout | hout
      · rw [hmain] at hout
        have : res = out := Except.ok.inj hout
        subst this
        exact Or.inl rfl
      · rw [hmain] at hout
        exact Except.noConfusion hout
    · rcases hout with hout | hout
      · rw [hmain] at hout
        exact Except.noConfusion hout
      · rw [hmain] at hout
        have : res = out := Except.error.inj hout
        subst this
        exact Or.inl rfl
    · rcases hcase with ⟨hd, heq⟩ | ⟨hd, sub, heq⟩
      · have hone : out = objSet res "title_ocr_result" t := by
          rcases hout with hout | hout
          · rw [heq] at hout
            exact (Except.ok.inj hout).symm
          · rw [heq] at hout
            exact Except.noConfusion hout
        subst hone
        rcases objGetD_objSet_same res "title_ocr_result" t with hsame | hsame
        · rw [hsame]
          exact Or.inr ⟨ht, hts⟩
        · rw [hsame]
          exact Or.inl rfl
      · have hone : out = objSet (objSet res "title_ocr_result" t) "title_char_info" sub := by
          rcases heq with heq | heq
          · rcases hout with hout | hout
            · rw [heq] at hout
              exact (Except.ok.inj hout).symm
            · rw [heq] at hout
              exact Except.noConfusion hout
          · rcases hout with hout | hout
            · rw [heq] at hout
              exact Except.noConfusion hout
            · rw [heq] at hout
              exact (Except.error.inj hout).symm
        subst hone
        rw [objGetD_objSet_ne (by decide)]
        rcases objGetD_objSet_same res "title_ocr_result" t with hsame | hsame
        · rw [hsame]
          exact Or.inr ⟨ht, hts⟩
        · rw [hsame]
          exact Or.inl rfl
  · intro d st line st' h v hv
    rcases lineStep_ok_cases d st line st' h with rfl | ⟨info, ha, hflag, t, ht, hts, hshape⟩
    · exact Or.inl hv
    · rw [elems_appendE ha] at hv
      rcases List.mem_append.mp hv with hv | hv
      · exact Or.inl hv
      · have hvi : v = info := List.mem_singleton.mp hv
        subst hvi
        right
        rcases hshape with ⟨_, rfl⟩ | ⟨_, sub, rfl⟩
        · have he : objGetD (objSet JVal.null "line_ocr_result" t) "line_ocr_result" = t := by
            simp [objSet, objGetD, getField]
          rw [he]
          exact ⟨ht, hts⟩
        · have he : objGetD (objSet (objSet JVal.null "line_ocr_result" t)
              "line_char_info" sub) "line_ocr_result" = t := by
            rw [objGetD_objSet_ne (by decide)]
            simp [objSet, objGetD, getField]
          rw [he]
          exact ⟨ht, hts⟩

/-- Witness for C9 at concrete merges: an empty title is dropped, a null
line is skipped, an all-empty paragraph appends nothing, and a written
title/line text is non-empty. -/
theorem C9_empty_entries_filtered_witness :
    parse_title_info .null (.obj [("text", .str "")]) true = .ok .null ∧
    lineStep true (JVal.null, false) (.obj [("text", JVal.null)]) = .ok (JVal.null, false) ∧
    paraStep true .null (.arr [.obj [("text", .str "")]]) = .ok .null ∧
    (objGetD (.obj [("title_ocr_result", .str "hello")]) "title_ocr_result" =
       objGetD JVal.null "title_ocr_result" ∨
     (objGetD (.obj [("title_ocr_result", .str "hello")]) "title_ocr_result" ≠ JVal.null ∧
      objGetD (.obj [("title_ocr_result", .str "hello")]) "title_ocr_result" ≠ JVal.str "")) ∧
    (JVal.obj [("line_ocr_result", JVal.str "x")] ∈ elems JVal.null ∨
     (objGetD (JVal.obj [("line_ocr_result", JVal.str "x")]) "line_ocr_result" ≠ JVal.null ∧
      objGetD (JVal.obj [("line_ocr_result", JVal.str "x")]) "line_ocr_result" ≠ JVal.str "")) :=
  ⟨C9_empty_entries_filtered.1 .null [("text", .str "")] true (Or.inr (Or.inr rfl)),
   C9_empty_entries_filtered.2.1 true (JVal.null, false) (.obj [("text", JVal.null)])
     (Or.inl rfl),
   C9_empty_entries_filtered.2.2.1 true .null (.arr [.obj [("text", .str "")]])
     (by intro l hl
         rw [List.mem_singleton.mp hl]
         exact Or.inr rfl),
   C9_empty_entries_filtered.2.2.2.1 JVal.null (.obj [("text", .str "hello")]) false
     (.obj [("title_ocr_result", .str "hello")]) (Or.inl rfl),
   C9_empty_entries_filtered.2.2.2.2 false (JVal.null, false) (.obj [("text", .str "x")])
     (.arr [.obj [("line_ocr_result", .str "x")]], true) rfl
     (JVal.obj [("line_ocr_result", JVal.str "x")]) (List.mem_singleton.mpr rfl)⟩

lemma charEntry_mk (s c : String) (q : Int) (sec : String) (n i : Nat) (hi : i < n)
    (hsec : ¬ "char_location" = sec) :
    charEntry (mkCharInput s n c q) sec i = .ok (charEntry0 sec c q) := by
  have h1 : objGetD (mkCharInput s n c q) "char_pos" =
      .arr (List.replicate n (.arr [.num 0, .num 0])) := by
    simp [mkCharInput, objGetD, getField]
  have h2 : objGetD (mkCharInput s n c q) "char_box" = .null := by
    simp [mkCharInput, objGetD, getField]
  have h3 : objGetD (mkCharInput s n c q) "char_arr" =
      .arr (List.replicate n (.arr [.arr [.str c, .num q]])) := by
    simp [mkCharInput, objGetD, getField]
  simp [charEntry, h1, h2, h3, arrIdxE, get_replicate _ n i hi, appendE, objSet, setField,
    elems, List.foldlM, topStep, charEntry0, hsec, pure, Except.pure]
  rfl

lemma pciGo_mk (s c : String) (q : Int) (sec : String) (n : Nat)
    (hsec : ¬ "char_location" = sec) :
    ∀ (rem i : Nat) (xs : List JVal), i + rem ≤ n →
      pciGo (mkCharInput s n c q) sec rem i (.arr xs) =
        .ok (.arr (xs ++ List.replicate rem (charEntry0 sec c q))) := by
  intro rem
  induction rem with
  | zero =>
    intro i xs h
    simp [pciGo]
  | succ rem ih =>
    intro i xs h
    have heq : pciGo (mkCharInput s n c q) sec (rem + 1) i (.arr xs) =
        pciGo (mkCharInput s n c q) sec rem (i + 1) (.arr (xs ++ [charEntry0 sec c q])) := by
      simp [pciGo, charEntry_mk s c q sec n i (by omega) hsec, appendE]
    rw [heq, ih (i + 1) (xs ++ [charEntry0 sec c q]) (by omega)]
    simp [List.replicate_succ, List.append_assoc]

lemma parse_char_info_mk (s c : String) (q : Int) (sec : String) (n : Nat) (hn : 0 < n)
    (hsec : ¬ "char_location" = sec) :
    parse_char_info .null (mkCharInput s n c q) sec =
      .ok (.arr (List.replicate n (charEntry0 sec c q))) := by
  obtain ⟨n', rfl⟩ : ∃ n', n = n' + 1 := ⟨n - 1, by omega⟩
  have hcp : objGetE (mkCharInput s (n' + 1) c q) "char_pos" =
      .ok (.arr (List.replicate (n' + 1) (.arr [.num 0, .num 0]))) := by
    simp [mkCharInput, objGetE, getField]
  have hsz : size (JVal.arr (List.replicate (n' + 1) (JVal.arr [.num 0, .num 0]))) =
      n' + 1 := by
    simp [size]
  have h0 : pciGo (mkCharInput s (n' + 1) c q) sec (n' + 1) 0 .null =
      pciGo (mkCharInput s (n' + 1) c q) sec n' 1 (.arr [charEntry0 sec c q]) := by
    simp [pciGo, charEntry_mk s c q sec (n' + 1) 0 (by omega) hsec, appendE]
  simp only [parse_char_info, hcp, hsz, h0,
    pciGo_mk s c q sec (n' + 1) hsec n' 1 [charEntry0 sec c q] (by omega)]
  simp [List.replicate_succ]

lemma isMemberB_objSet_self (r : JVal) (k : String) (v : JVal)
    (h : r = JVal.null ∨ ∃ fs, r = JVal.obj fs) :
    isMemberB (objSet r k v) k = true := by
  rcases h with rfl | ⟨fs, rfl⟩
  · simp [objSet, isMemberB, getField]
  · simp [objSet, isMemberB, getField_setField]

lemma objGetD_objSet_self (r : JVal) (k : String) (v : JVal)
    (h : r = JVal.null ∨ ∃ fs, r = JVal.obj fs) :
    objGetD (objSet r k v) k = v := by
  rcases h with rfl | ⟨fs, rfl⟩
  · simp [objSet, objGetD, getField]
  · simp [objSet, objGetD, getField_setField]

lemma objSet_shape (r : JVal) (k : String) (v : JVal)
    (h : r = JVal.null ∨ ∃ fs, r = JVal.obj fs) :
    ∃ fs, objSet r k v = JVal.obj fs := by
  rcases h with rfl | ⟨fs, rfl⟩
  · exact ⟨[(k, v)], rfl⟩
  · exact ⟨setField fs k v, rfl⟩

/-- Emission of `title_char_info` by `parse_title_info` with details on:
one entry per character of the canonical input. -/
lemma parse_title_info_mk (res : JVal) (s c : String) (q : Int) (n : Nat)
    (hlen : s.length ≠ 0) (hn : 0 < n)
    (hmem : isMemberB res "title_char_info" = false)
    (hres : res = JVal.null ∨ ∃ fs, res = JVal.obj fs) :
    parse_title_info res (mkCharInput s n c q) true =
      .ok (objSet (objSet res "title_ocr_result" (.str s)) "title_char_info"
        (.arr (List.replicate n (charEntry0 "char_ocr_topn" c q)))) := by
  unfold parse_title_info
  rw [if_neg (by simp [mkCharInput, size])]
  have hm : isMemberE (mkCharInput s n c q) "text" = .ok true := by
    simp [mkCharInput, isMemberE, getField]
  simp only [hm]
  have htx : objGetD (mkCharInput s n c q) "text" = .str s := by
    simp [mkCharInput, objGetD, getField]
  rw [htx]
  rw [if_neg (by simp [isNull])]
  simp only [asStringE]
  rw [if_neg hlen]
  have hw : ∃ w, objGetE res "title_ocr_result" = .ok w := by
    rcases hres with rfl | ⟨fs, rfl⟩
    · exact ⟨.null, rfl⟩
    · exact ⟨_, rfl⟩
  obtain ⟨w, hw⟩ := hw
  simp only [hw]
  simp only [Bool.not_true, Bool.false_eq_true, if_false]
  have hsub : objGetD (objSet res "title_ocr_result" (.str s)) "title_char_info" = .null := by
    rw [objGetD_objSet_ne (by decide)]
    exact objGetD_of_not_member hmem
  rw [hsub, parse_char_info_mk s c q "char_ocr_topn" n hn (by decide)]

/-- Emission of `line_char_info` by the line loop with details on. -/
lemma lineStep_mk (s c : String) (q : Int) (n : Nat)
    (hlen : s.length ≠ 0) (hn : 0 < n) :
    lineStep true (JVal.null, false) (mkCharInput s n c q) =
      .ok (.arr [objSet (objSet .null "line_ocr_result" (.str s)) "line_char_info"
        (.arr (List.replicate n (charEntry0 "line_char_topn" c q)))], true) := by
  unfold lineStep
  have hg : objGetE (mkCharInput s n c q) "text" = .ok (.str s) := by
    simp [mkCharInput, objGetE, getField]
  simp only [hg]
  rw [if_neg (by simp [isNull])]
  simp only [asStringE]
  rw [if_neg hlen]
  simp only [if_true]
  have hsub : objGetD (objSet JVal.null "line_ocr_result" (.str s)) "line_char_info" =
      .null := by
    rw [objGetD_objSet_ne (by decide)]
    rfl
  rw [hsub, parse_char_info_mk s c q "line_char_topn" n hn (by decide)]
  simp [appendE]

/-- Claim C8: character-level output is gated by the details flag.  With
details off, the title section never gains a `title_char_info` member and
a line step appends only bare `line_ocr_result` entries; with details on,
a stage output containing character data yields a `title_char_info` /
`line_char_info` member with one entry per character, each carrying the
candidate/confidence array. -/
theorem C8_details_gating :
    (∀ (res input out : JVal),
      (parse_title_info res input false = .ok out ∨
       parse_title_info res input false = .error out) →
      isMemberB res "title_char_info" = false →
      isMemberB out "title_char_info" = false) ∧
    (∀ (st : JVal × Bool) (line : JVal) (st' : JVal × Bool),
      lineStep false st line = .ok st' →
      ∀ v ∈ elems st'.1, v ∈ elems st.1 ∨ isMemberB v "line_char_info" = false) ∧
    (∀ (res : JVal) (s c : String) (q : Int) (n : Nat),
      s.length ≠ 0 → 0 < n → isMemberB res "title_char_info" = false →
      (res = JVal.null ∨ ∃ fs, res = JVal.obj fs) →
      ∃ out, parse_title_info res (mkCharInput s n c q) true = .ok out ∧
        isMemberB out "title_char_info" = true ∧
        size (objGetD out "title_char_info") = n ∧
        ∀ v ∈ elems (objGetD out "title_char_info"),
          isMemberB v "char_ocr_topn" = true) ∧
    (∀ (s c : String) (q : Int) (n : Nat),
      s.length ≠ 0 → 0 < n →
      ∃ info, lineStep true (JVal.null, false) (mkCharInput s n c q) =
          .ok (.arr [info], true) ∧
        isMemberB info "line_char_info" = true ∧
        size (objGetD info "line_char_info") = n) := by
  refine ⟨?_, ?_, ?_, ?_⟩
  · intro res input out hout hmem
    rcases parse_title_info_main res input false with hmain | hmain | ⟨t, ht, hts, hcase⟩
    · rcases hout with hout | hout
      · rw [hmain] at hout
        rw [← Except.ok.inj hout]
        exact hmem
      · rw [hmain] at hout
        exact Except.noConfusion hout
    · rcases hout with hout | hout
      · rw [hmain] at hout
        exact Except.noConfusion hout
      · rw [hmain] at hout
        rw [← Except.error.inj hout]
        exact hmem
    · rcases hcase with ⟨hd, heq⟩ | ⟨hd, _⟩
      · have hone : out = objSet res "title_ocr_result" t := by
          rcases hout with hout | hout
          · rw [heq] at hout
            exact (Except.ok.inj hout).symm
          · rw [heq] at hout
            exact Except.noConfusion hout
        subst hone
        cases hv : isMemberB (objSet res "title_ocr_result" t) "title_char_info" with
        | false => rfl
        | true =>
          rcases isMemberB_objSet hv with h1 | h1
          · exact absurd h1 (by decide)
          · rw [h1] at hmem
            exact Bool.noConfusion hmem
      · exact Bool.noConfusion hd
  · intro st line st' h v hv
    rcases lineStep_ok_cases false st line st' h with rfl | ⟨info, ha, hflag, t, ht, hts, hshape⟩
    · exact Or.inl hv
    · rw [elems_appendE ha] at hv
      rcases List.mem_append.mp hv with hv | hv
      · exact Or.inl hv
      · rcases hshape with ⟨_, rfl⟩ | ⟨hd, _⟩
        · right
          rw [List.mem_singleton.mp hv]
          simp [objSet, isMemberB, getField]
        · exact Bool.noConfusion hd
  · intro res s c q n hlen hn hmem hres
    refine ⟨objSet (objSet res "title_ocr_result" (.str s)) "title_char_info"
        (.arr (List.replicate n (charEntry0 "char_ocr_topn" c q))),
      parse_title_info_mk res s c q n hlen hn hmem hres, ?_, ?_, ?_⟩
    · exact isMemberB_objSet_self _ _ _ (Or.inr (objSet_shape res _ _ hres))
    · rw [objGetD_objSet_self _ _ _ (Or.inr (objSet_shape res _ _ hres))]
      simp [size]
    · intro v hv
      rw [objGetD_objSet_self _ _ _ (Or.inr (objSet_shape res _ _ hres))] at hv
      have : v = charEntry0 "char_ocr_topn" c q :=
        List.eq_of_mem_replicate (by simpa [elems] using hv)
      rw [this]
      simp [charEntry0, isMemberB, getField]
  · intro s c q n hlen hn
    refine ⟨objSet (objSet .null "line_ocr_result" (.str s)) "line_char_info"
        (.arr (List.replicate n (charEntry0 "line_char_topn" c q))),
      lineStep_mk s c q n hlen hn, ?_, ?_⟩
    · exact isMemberB_objSet_self _ _ _ (Or.inr ⟨_, rfl⟩)
    · rw [objGetD_objSet_self (objSet JVal.null "line_ocr_result" (JVal.str s))
        "line_char_info" _ (Or.inr ⟨[("line_ocr_result", JVal.str s)], rfl⟩)]
      simp [size]

/-- Witness for C8 at concrete merges: with details off no char keys
appear; with details on a one-character input emits the char sections. -/
theorem C8_details_gating_witness :
    isMemberB (.obj [("title_ocr_result", .str "hi")]) "title_char_info" = false ∧
    (JVal.obj [("line_ocr_result", JVal.str "x")] ∈ elems JVal.null ∨
      isMemberB (JVal.obj [("line_ocr_result", JVal.str "x")]) "line_char_info" = false) ∧
    (∃ out, parse_title_info JVal.null (mkCharInput "ab" 1 "a" 9) true = .ok out ∧
      isMemberB out "title_char_info" = true ∧
      size (objGetD out "title_char_info") = 1 ∧
      ∀ v ∈ elems (objGetD out "title_char_info"),
        isMemberB v "char_ocr_topn" = true) ∧
    (∃ info, lineStep true (JVal.null, false) (mkCharInput "ab" 1 "a" 9) =
        .ok (.arr [info], true) ∧
      isMemberB info "line_char_info" = true ∧
      size (objGetD info "line_char_info") = 1) :=
  ⟨C8_details_gating.1 JVal.null (.obj [("text", .str "hi")])
     (.obj [("title_ocr_result", .str "hi")]) (Or.inl rfl) rfl,
   C8_details_gating.2.1 (JVal.null, false) (.obj [("text", .str "x")])
     (.arr [.obj [("line_ocr_result", .str "x")]], true) rfl
     (JVal.obj [("line_ocr_result", JVal.str "x")]) (List.mem_singleton.mpr rfl),
   C8_details_gating.2.2.1 JVal.null "ab" "a" 9 1 (by decide) (by decide) rfl (Or.inl rfl),
   C8_details_gating.2.2.2 "ab" "a" 9 1 (by decide) (by decide)⟩

/-- Claim C10: the HTTP response's `data` member is the merged result only
when the final error is `E_OK`; on any error (image-handling failure, or
`parse_task` returning false and being mapped to `E_INTERNAL_ERROR`) the
`data` member is the default-constructed null value, so a partially
populated merge tree from a failed request never reaches the caller. -/
theorem C10_data_only_on_ok (himg : TALError) (o : Oracle) (details prcision : Bool) :
    ((handler o details prcision JVal.null).1 ≠ E_OK ∨ himg ≠ E_OK →
      objGetD (HandleRequest himg o details prcision) "data" = JVal.null) ∧
    (himg = E_OK → (handler o details prcision JVal.null).1 = E_OK →
      objGetD (HandleRequest himg o details prcision) "data" =
        (handler o details prcision JVal.null).2) := by
  have hroot : ∀ (e : TALError) (dv : JVal),
      objGetD (objSet (objSet (objSet JVal.null "code" (JVal.num e.code)) "msg"
        (JVal.str e.message)) "data" dv) "data" = dv := by
    intro e dv
    exact objGetD_objSet_self _ _ _
      (Or.inr ⟨setField [("code", JVal.num e.code)] "msg" (JVal.str e.message), rfl⟩)
  by_cases hh : himg = E_OK
  · subst hh
    have hne : ¬ (E_OK ≠ E_OK) := fun hc => hc rfl
    constructor
    · intro hcase
      rcases hcase with hc | hc
      · simp only [HandleRequest]
        rw [if_neg hne, if_neg hc]
        exact hroot _ _
      · exact absurd rfl hc
    · intro _ hok
      simp only [HandleRequest]
      rw [if_neg hne, if_pos hok]
      exact hroot _ _
  · constructor
    · intro _
      simp only [HandleRequest]
      rw [if_pos hh, if_neg hh]
      exact hroot _ _
    · intro h1 _
      exact absurd h1 hh

/-- Witness for C10: the partially populated tree is non-null, yet the
response's data member is null. -/
theorem C10_data_only_on_ok_witness :
    (handler oPartial true true JVal.null).2 ≠ JVal.null ∧
    objGetD (HandleRequest E_OK oPartial true true) "data" = JVal.null :=
  ⟨fun h => JVal.noConfusion h,
   (C10_data_only_on_ok E_OK oPartial true true).1 (Or.inl (by decide))⟩

end CompositionService
